import Mathlib

/-!
Verification of the include-path resolver `resolve_include_path` from
`src/utils.rs` of the ipdl_parser repository.

The resolver iterates an ordered list of include directories, joins each
directory with the requested file path using host path-join semantics,
and returns the canonicalized form of the first candidate that exists on
the filesystem and canonicalizes successfully; otherwise it yields the
"not found" sentinel `none`.

The host filesystem is modelled as a value of type `FileSystem`: an
existence predicate together with a canonicalization primitive, both
read-only.  Paths are modelled as an absoluteness flag plus a list of
components, which captures exactly the path-join behavior the resolver
relies on (an absolute right-hand side replaces the left-hand side).
-/

/-- A filesystem path: an absoluteness flag together with the list of
path components.  This mirrors the view of `std::path::PathBuf` that the
resolver depends on. -/
structure FsPath where
  absolute : Bool
  components : List String
  deriving DecidableEq, Repr

/-- Host path-join semantics, the behavior of `PathBuf::push` used at
`p.push(file_path)` in the source: an absolute right-hand side replaces
the left-hand side, otherwise the components are appended. -/
def joinPath (d : FsPath) (f : FsPath) : FsPath :=
  if f.absolute then f else ⟨d.absolute, d.components ++ f.components⟩

/-- The host filesystem interface used by the resolver: the existence
check `Path::exists` (which follows links) and the canonicalization
primitive `Path::canonicalize` (which returns an absolute path or
fails).  Both are metadata reads; the resolver never writes. -/
structure FileSystem where
  pathExists : FsPath → Bool
  canonicalize : FsPath → Option FsPath

/-- The resolver of `src/utils.rs`: iterate `include_dirs` in order; for
each directory `d`, form `p = join d file_path`; if `p` exists and
canonicalizes to `pb`, return `some pb` at once; on a failed existence
check or a failed canonicalization, continue with the next directory;
return `none` when the list is exhausted. -/
def resolve_include_path (fs : FileSystem) (include_dirs : List FsPath)
    (file_path : FsPath) : Option FsPath :=
  match include_dirs with
  | [] => none
  | d :: rest =>
      let p := joinPath d file_path
      if fs.pathExists p then
        match fs.canonicalize p with
        | some pb => some pb
        | none => resolve_include_path fs rest file_path
      else
        resolve_include_path fs rest file_path

/-- The outcome of probing a single directory: the canonicalized
candidate when the joined candidate exists and canonicalizes, `none`
otherwise. -/
def probeDir (fs : FileSystem) (file_path : FsPath) (d : FsPath) :
    Option FsPath :=
  if fs.pathExists (joinPath d file_path) then
    fs.canonicalize (joinPath d file_path)
  else
    none

/-- Instrumented resolver: computes the same result as
`resolve_include_path`, and additionally records, in order, every
candidate path on which an existence check is performed, together with
the number of canonicalization attempts. -/
def resolve_trace (fs : FileSystem) (include_dirs : List FsPath)
    (file_path : FsPath) : List FsPath × Nat × Option FsPath :=
  match include_dirs with
  | [] => ([], 0, none)
  | d :: rest =>
      let p := joinPath d file_path
      if fs.pathExists p then
        match fs.canonicalize p with
        | some pb => ([p], 1, some pb)
        | none =>
            let r := resolve_trace fs rest file_path
            (p :: r.1, r.2.1 + 1, r.2.2)
      else
        let r := resolve_trace fs rest file_path
        (p :: r.1, r.2.1, r.2.2)

/-- One unfolding step of the resolver, phrased through `probeDir`. -/
lemma resolve_cons (fs : FileSystem) (F d : FsPath) (rest : List FsPath) :
    resolve_include_path fs (d :: rest) F =
      match probeDir fs F d with
      | some p => some p
      | none => resolve_include_path fs rest F := by
  simp only [resolve_include_path, probeDir]
  cases hE : fs.pathExists (joinPath d F) with
  | false => simp
  | true =>
      cases hC : fs.canonicalize (joinPath d F) with
      | none => simp
      | some pb => simp

/-- The resolver on an appended list first searches the left part and,
if that fails, searches the right part. -/
lemma resolve_append (fs : FileSystem) (F : FsPath) (A B : List FsPath) :
    resolve_include_path fs (A ++ B) F =
      match resolve_include_path fs A F with
      | some p => some p
      | none => resolve_include_path fs B F := by
  induction A with
  | nil => simp [resolve_include_path]
  | cons d rest ih =>
      rw [List.cons_append, resolve_cons, resolve_cons, ih]
      cases probeDir fs F d with
      | none => rfl
      | some p => rfl

/-- The resolver misses exactly when every directory probe misses. -/
lemma resolve_eq_none_iff (fs : FileSystem) (F : FsPath)
    (L : List FsPath) :
    resolve_include_path fs L F = none ↔
      ∀ d ∈ L, probeDir fs F d = none := by
  induction L with
  | nil => simp [resolve_include_path]
  | cons d rest ih =>
      rw [resolve_cons]
      cases hP : probeDir fs F d with
      | none => simp [hP, ih]
      | some p => simp [hP]

/-- A returned path is always an output of the canonicalization
primitive on some candidate that passed the existence check. -/
lemma resolve_some_from_canonicalize (fs : FileSystem) (F P : FsPath)
    (L : List FsPath) (h : resolve_include_path fs L F = some P) :
    ∃ d ∈ L, fs.pathExists (joinPath d F) = true ∧
      fs.canonicalize (joinPath d F) = some P := by
  induction L with
  | nil => simp [resolve_include_path] at h
  | cons d rest ih =>
      rw [resolve_cons] at h
      cases hP : probeDir fs F d with
      | some q =>
          rw [hP] at h
          simp only [Option.some.injEq] at h
          subst h
          unfold probeDir at hP
          cases hE : fs.pathExists (joinPath d F) with
          | false => rw [hE] at hP; simp at hP
          | true =>
              rw [hE] at hP
              simp only [if_true] at hP
              exact ⟨d, List.mem_cons_self d rest, hE, hP⟩
      | none =>
          rw [hP] at h
          obtain ⟨e, he, hex, hc⟩ := ih h
          exact ⟨e, List.mem_cons_of_mem d he, hex, hc⟩

/-- If every directory strictly before position `k` probes to `none` and
the directory at position `k` probes to `some P`, the resolver returns
`some P`. -/
lemma resolve_first_aux (fs : FileSystem) (F P : FsPath) :
    ∀ (L : List FsPath) (k : Nat) (hk : k < L.length),
    (∀ j (hj : j < L.length), j < k → probeDir fs F (L.get ⟨j, hj⟩) = none) →
    probeDir fs F (L.get ⟨k, hk⟩) = some P →
    resolve_include_path fs L F = some P := by
  intro L
  induction L with
  | nil => intro k hk; exact absurd hk (by simp)
  | cons d rest ih =>
      intro k hk hbefore hhit
      rw [resolve_cons]
      cases k with
      | zero =>
          simp only [List.get] at hhit
          rw [hhit]
      | succ k' =>
          have hd : probeDir fs F d = none := by
            have := hbefore 0 (by simp) (Nat.succ_pos k')
            simpa using this
          rw [hd]
          have hk' : k' < rest.length := Nat.lt_of_succ_lt_succ hk
          apply ih k' hk'
          · intro j hj hjk
            have := hbefore (j + 1) (by simpa using Nat.succ_lt_succ hj)
              (Nat.succ_lt_succ hjk)
            simpa using this
          · simpa using hhit

/-- Joining an absolute file reference onto any directory yields the
file reference itself. -/
lemma joinPath_absolute (d F : FsPath) (habs : F.absolute = true) :
    joinPath d F = F := by
  simp [joinPath, habs]

/-- For an absolute file reference, the resolver on any non-empty list
reduces to the single probe of the file reference itself. -/
lemma resolve_absolute_eq (fs : FileSystem) (F : FsPath)
    (habs : F.absolute = true) :
    ∀ (L : List FsPath), L ≠ [] →
    resolve_include_path fs L F =
      (if fs.pathExists F then fs.canonicalize F else none) := by
  intro L
  induction L with
  | nil => intro h; exact absurd rfl h
  | cons d rest ih =>
      intro _
      rw [resolve_cons]
      have hP : probeDir fs F d =
          (if fs.pathExists F then fs.canonicalize F else none) := by
        simp [probeDir, joinPath_absolute d F habs]
      rw [hP]
      cases hE : fs.pathExists F with
      | false =>
          simp only [hE, Bool.false_eq_true, if_false]
          cases rest with
          | nil => simp [resolve_include_path]
          | cons e rest' => simpa [hE] using ih (by simp)
      | true =>
          simp only [hE, if_true]
          cases hC : fs.canonicalize F with
          | some q => simp
          | none =>
              show resolve_include_path fs rest F = none
              cases rest with
              | nil => simp [resolve_include_path]
              | cons e rest' => simpa [hE, hC] using ih (by simp)

/-- The instrumented resolver computes the same result as the resolver,
its probe list is exactly the joined candidates of a prefix of the
directory list, its existence-check count is the probe-list length, and
its canonicalization count never exceeds the existence-check count; on a
miss the whole list has been probed. -/
lemma resolve_trace_spec (fs : FileSystem) (F : FsPath) :
    ∀ (L : List FsPath),
    (resolve_trace fs L F).2.2 = resolve_include_path fs L F
    ∧ (resolve_trace fs L F).1 =
        (L.take (resolve_trace fs L F).1.length).map (fun d => joinPath d F)
    ∧ (resolve_trace fs L F).1.length ≤ L.length
    ∧ (resolve_trace fs L F).2.1 ≤ (resolve_trace fs L F).1.length
    ∧ ((resolve_trace fs L F).2.2 = none →
        (resolve_trace fs L F).1 = L.map (fun d => joinPath d F)) := by
  intro L
  induction L with
  | nil => simp [resolve_trace, resolve_include_path]
  | cons d rest ih =>
      obtain ⟨ihres, ihpre, ihlen, ihcanon, ihmiss⟩ := ih
      simp only [resolve_trace, resolve_include_path]
      cases hE : fs.pathExists (joinPath d F) with
      | false =>
          simp only [Bool.false_eq_true, if_false]
          refine ⟨ihres, ?_, by simpa using ihlen,
            by simp only [List.length_cons]; exact Nat.le_succ_of_le ihcanon, ?_⟩
          · simp only [List.length_cons, List.take_succ_cons, List.map_cons]
            exact congrArg (joinPath d F :: ·) ihpre
          · intro hmiss
            simp only [List.map_cons]
            exact congrArg (joinPath d F :: ·) (ihmiss hmiss)
      | true =>
          simp only [if_true]
          cases hC : fs.canonicalize (joinPath d F) with
          | some pb => simp
          | none =>
              simp only []
              refine ⟨ihres, ?_, by simpa using ihlen, ?_, ?_⟩
              · simp only [List.length_cons, List.take_succ_cons,
                  List.map_cons]
                exact congrArg (joinPath d F :: ·) ihpre
              · simpa using Nat.succ_le_succ ihcanon
              · intro hmiss
                simp only [List.map_cons]
                exact congrArg (joinPath d F :: ·) (ihmiss hmiss)

/-- Directory `/tmp/a` of the concrete test filesystem. -/
def dirA : FsPath := ⟨true, ["tmp", "a"]⟩

/-- Directory `/tmp/b` of the concrete test filesystem. -/
def dirB : FsPath := ⟨true, ["tmp", "b"]⟩

/-- Directory `/tmp/ghost` of the concrete test filesystem: its
candidate exists but fails to canonicalize. -/
def dirGhost : FsPath := ⟨true, ["tmp", "ghost"]⟩

/-- The relative file reference `hdr.h`. -/
def hdr : FsPath := ⟨false, ["hdr.h"]⟩

/-- The absolute path `/tmp/a/hdr.h`. -/
def hdrA : FsPath := ⟨true, ["tmp", "a", "hdr.h"]⟩

/-- The absolute path `/tmp/b/hdr.h`. -/
def hdrB : FsPath := ⟨true, ["tmp", "b", "hdr.h"]⟩

/-- The absolute path `/tmp/ghost/hdr.h`: exists but does not
canonicalize. -/
def hdrGhost : FsPath := ⟨true, ["tmp", "ghost", "hdr.h"]⟩

/-- A concrete test filesystem: `/tmp/a/hdr.h`, `/tmp/b/hdr.h` and
`/tmp/ghost/hdr.h` exist; the first two canonicalize to themselves while
the third fails to canonicalize. -/
def demoFS : FileSystem where
  pathExists p := decide (p = hdrA) || decide (p = hdrB) || decide (p = hdrGhost)
  canonicalize p :=
    if p = hdrA then some hdrA else if p = hdrB then some hdrB else none

/-- Claim C1: for every non-empty search list `L` and file reference
`F`, if there is a smallest index `k` such that joining `L[k]` with `F`
names an existing filesystem entry and canonicalization of that join
succeeds (every strictly earlier index fails that test), then the
resolver returns exactly the canonicalization of `joinPath L[k] F`,
probing candidates strictly in list order and returning at the first
such `k`. -/
theorem C1_resolve_returns_first_match (fs : FileSystem)
    (L : List FsPath) (F P : FsPath) (k : Nat) (hk : k < L.length)
    (hbefore : ∀ j (hj : j < L.length), j < k →
      ¬ (fs.pathExists (joinPath (L.get ⟨j, hj⟩) F) = true ∧
         fs.canonicalize (joinPath (L.get ⟨j, hj⟩) F) ≠ none))
    (hexists : fs.pathExists (joinPath (L.get ⟨k, hk⟩) F) = true)
    (hcanon : fs.canonicalize (joinPath (L.get ⟨k, hk⟩) F) = some P) :
    resolve_include_path fs L F = some P := by
  apply resolve_first_aux fs F P L k hk
  · intro j hj hjk
    have h := hbefore j hj hjk
    unfold probeDir
    cases hEx : fs.pathExists (joinPath (L.get ⟨j, hj⟩) F) with
    | false => simp
    | true =>
        simp only [if_true]
        by_contra hne
        exact h ⟨hEx, hne⟩
  · unfold probeDir
    rw [hexists, hcanon]
    simp

/-- Witness for C1 on the concrete filesystem: with search list
`[/tmp/ghost, /tmp/a]` and file reference `hdr.h`, the ghost candidate
exists but fails to canonicalize, so index 1 is the first full match and
`/tmp/a/hdr.h` is returned. -/
theorem C1_witness :
    resolve_include_path demoFS [dirGhost, dirA] hdr = some hdrA :=
  C1_resolve_returns_first_match demoFS [dirGhost, dirA] hdr hdrA 1
    (by decide) (by decide) (by decide) (by decide)

/-- Claim C2: whenever the host canonicalization primitive only returns
absolute paths to existing entries (the host contract), every found
result of the resolver is an absolute path naming an existing filesystem
entry; the only other outcome is the "not found" sentinel `none`. -/
theorem C2_result_absolute_and_existing (fs : FileSystem)
    (hcontract : ∀ p q, fs.canonicalize p = some q →
      q.absolute = true ∧ fs.pathExists q = true)
    (L : List FsPath) (F P : FsPath)
    (h : resolve_include_path fs L F = some P) :
    P.absolute = true ∧ fs.pathExists P = true := by
  obtain ⟨d, _, _, hc⟩ := resolve_some_from_canonicalize fs F P L h
  exact hcontract (joinPath d F) P hc

/-- Witness for C2: on the concrete filesystem, the canonicalization
contract holds and the resolved path `/tmp/a/hdr.h` is absolute and
exists. -/
theorem C2_witness :
    hdrA.absolute = true ∧ demoFS.pathExists hdrA = true :=
  C2_result_absolute_and_existing demoFS
    (by
      intro p q hpq
      have hdef : demoFS.canonicalize p =
          if p = hdrA then some hdrA
          else if p = hdrB then some hdrB else none := rfl
      rw [hdef] at hpq
      by_cases h1 : p = hdrA
      · rw [if_pos h1] at hpq
        injection hpq with hq
        subst hq
        decide
      · rw [if_neg h1] at hpq
        by_cases h2 : p = hdrB
        · rw [if_pos h2] at hpq
          injection hpq with hq
          subst hq
          decide
        · rw [if_neg h2] at hpq
          exact absurd hpq (by simp))
    [dirA] hdr hdrA (by decide)

/-- Claim C3: if for some directory the joined candidate exists but its
canonicalization fails, the resolver skips that directory silently and
behaves exactly as it would on the remaining directories: the failure is
never surfaced, and a later directory whose candidate exists and
canonicalizes is still returned. -/
theorem C3_failed_canonicalization_skipped (fs : FileSystem)
    (F d : FsPath) (rest : List FsPath)
    (hexists : fs.pathExists (joinPath d F) = true)
    (hfail : fs.canonicalize (joinPath d F) = none) :
    resolve_include_path fs (d :: rest) F =
      resolve_include_path fs rest F := by
  rw [resolve_cons]
  have hP : probeDir fs F d = none := by
    simp [probeDir, hexists, hfail]
  rw [hP]

/-- Witness for C3: on the concrete filesystem, `/tmp/ghost/hdr.h`
exists but fails to canonicalize, and the search continues identically
with the rest of the list. -/
theorem C3_witness :
    resolve_include_path demoFS [dirGhost, dirA] hdr =
      resolve_include_path demoFS [dirA] hdr :=
  C3_failed_canonicalization_skipped demoFS hdr dirGhost [dirA]
    (by decide) (by decide)

/-- Claim C4: for every file reference, the resolver on the empty search
list returns the "not found" sentinel. -/
theorem C4_empty_search_list_not_found (fs : FileSystem) (F : FsPath) :
    resolve_include_path fs [] F = none := rfl

/-- Claim C5: for an absolute file reference `F`, joining `F` onto any
directory yields `F` itself, and the result of the resolver is
independent of the contents of the search list as long as the list is
non-empty. -/
theorem C5_absolute_ref_independent_of_list (fs : FileSystem)
    (F : FsPath) (L L' : List FsPath) (habs : F.absolute = true)
    (hL : L ≠ []) (hL' : L' ≠ []) :
    (∀ d, joinPath d F = F) ∧
      resolve_include_path fs L F = resolve_include_path fs L' F := by
  refine ⟨fun d => joinPath_absolute d F habs, ?_⟩
  rw [resolve_absolute_eq fs F habs L hL,
    resolve_absolute_eq fs F habs L' hL']

/-- Witness for C5: resolving the absolute reference `/tmp/a/hdr.h`
gives the same outcome for the two different non-empty search lists
`[/tmp/a]` and `[/tmp/b, /tmp/ghost]`. -/
theorem C5_witness :
    (∀ d, joinPath d hdrA = hdrA) ∧
      resolve_include_path demoFS [dirA] hdrA =
        resolve_include_path demoFS [dirB, dirGhost] hdrA :=
  C5_absolute_ref_independent_of_list demoFS hdrA [dirA]
    [dirB, dirGhost] rfl (by simp) (by simp)

/-- Claim C6: two runs of the resolver with identical search list and
file reference against filesystems that agree on every existence check
and every canonicalization (an unchanged filesystem between the calls)
yield identical outcomes. -/
theorem C6_two_run_determinism (fs1 fs2 : FileSystem)
    (L : List FsPath) (F : FsPath)
    (hE : fs1.pathExists = fs2.pathExists)
    (hC : fs1.canonicalize = fs2.canonicalize) :
    resolve_include_path fs1 L F = resolve_include_path fs2 L F := by
  cases fs1 with
  | mk e1 c1 =>
      cases fs2 with
      | mk e2 c2 =>
          have he : e1 = e2 := hE
          have hc : c1 = c2 := hC
          subst he
          subst hc
          rfl

/-- Witness for C6: two identical runs on the concrete filesystem agree. -/
theorem C6_witness :
    resolve_include_path demoFS [dirA] hdr =
      resolve_include_path demoFS [dirA] hdr :=
  C6_two_run_determinism demoFS demoFS [dirA] hdr rfl rfl

/-- Claim C7: duplicate entries in the search list behave identically to
their first occurrence: for a directory `D` occurring in the prefix `A`,
inserting another copy of `D` at any point after that occurrence (here
between `A` and `B`) leaves the result of the resolver on `A ++ B`
unchanged. -/
theorem C7_duplicate_after_first_occurrence (fs : FileSystem)
    (F D : FsPath) (A B : List FsPath) (hD : D ∈ A) :
    resolve_include_path fs (A ++ D :: B) F =
      resolve_include_path fs (A ++ B) F := by
  rw [resolve_append, resolve_append]
  cases hA : resolve_include_path fs A F with
  | some p => rfl
  | none =>
      rw [resolve_cons]
      have hP : probeDir fs F D = none :=
        (resolve_eq_none_iff fs F A).mp hA D hD
      rw [hP]

/-- Witness for C7: duplicating `/tmp/a` after its first occurrence in
the search list `[/tmp/a, /tmp/b]` does not change the outcome. -/
theorem C7_witness :
    resolve_include_path demoFS ([dirA] ++ dirA :: [dirB]) hdr =
      resolve_include_path demoFS ([dirA] ++ [dirB]) hdr :=
  C7_duplicate_after_first_occurrence demoFS hdr dirA [dirA] [dirB]
    (by simp)

/-- Claim C8: the resolver probes exactly the candidates obtained by
joining the caller-supplied directories with the file reference, in list
order: the probed candidates are the joined candidates of a prefix of
the list (the whole list on a miss), never more than the list length,
and never any other path such as an implicit empty-string or
current-directory entry; the instrumented run computes the same result
as the resolver. -/
theorem C8_probes_exactly_joined_candidates (fs : FileSystem)
    (L : List FsPath) (F : FsPath) :
    (resolve_trace fs L F).1 =
      (L.take (resolve_trace fs L F).1.length).map (fun d => joinPath d F)
    ∧ (resolve_trace fs L F).1.length ≤ L.length
    ∧ ((resolve_trace fs L F).2.2 = none →
        (resolve_trace fs L F).1 = L.map (fun d => joinPath d F))
    ∧ (resolve_trace fs L F).2.2 = resolve_include_path fs L F := by
  obtain ⟨h1, h2, h3, h4, h5⟩ := resolve_trace_spec fs F L
  exact ⟨h2, h3, h5, h1⟩

/-- Witness for C8 at the concrete search list `[/tmp/a]` and file
reference `hdr.h`. -/
theorem C8_witness :
    (resolve_trace demoFS [dirA] hdr).1 =
      (([dirA] : List FsPath).take
        (resolve_trace demoFS [dirA] hdr).1.length).map
        (fun d => joinPath d hdr)
    ∧ (resolve_trace demoFS [dirA] hdr).1.length ≤
        ([dirA] : List FsPath).length
    ∧ ((resolve_trace demoFS [dirA] hdr).2.2 = none →
        (resolve_trace demoFS [dirA] hdr).1 =
          ([dirA] : List FsPath).map (fun d => joinPath d hdr))
    ∧ (resolve_trace demoFS [dirA] hdr).2.2 =
        resolve_include_path demoFS [dirA] hdr :=
  C8_probes_exactly_joined_candidates demoFS [dirA] hdr

/-- Claim C9: appending directories to the end of the search list never
changes an already-found result: if the resolver returns `some P` on
`L`, it returns the same `some P` on `L ++ L'` for every extension
`L'`. -/
theorem C9_append_preserves_found (fs : FileSystem) (F P : FsPath)
    (L L' : List FsPath) (h : resolve_include_path fs L F = some P) :
    resolve_include_path fs (L ++ L') F = some P := by
  rw [resolve_append, h]

/-- Witness for C9: the hit `/tmp/a/hdr.h` found with search list
`[/tmp/a]` is preserved after appending `[/tmp/b]`. -/
theorem C9_witness :
    resolve_include_path demoFS ([dirA] ++ [dirB]) hdr = some hdrA :=
  C9_append_preserves_found demoFS hdr hdrA [dirA] [dirB] (by decide)

/-- Claim C10: the resolver is a total function of its inputs (it is
defined by structural recursion on the list, so it returns `some` or
`none` on every input), and it performs at most one existence check and
at most one canonicalization attempt per list entry: the instrumented
run, which computes the same result, records at most `L.length`
existence checks and at most `L.length` canonicalization attempts. -/
theorem C10_total_with_bounded_probes (fs : FileSystem)
    (L : List FsPath) (F : FsPath) :
    (resolve_trace fs L F).1.length ≤ L.length
    ∧ (resolve_trace fs L F).2.1 ≤ L.length
    ∧ (resolve_trace fs L F).2.2 = resolve_include_path fs L F := by
  obtain ⟨h1, h2, h3, h4, h5⟩ := resolve_trace_spec fs F L
  exact ⟨h3, le_trans h4 h3, h1⟩
